import Mathlib

/-!
Shallow embedding of `src/main.rs` of `fa_seq_compressibility`.

The program streams a FASTA file line by line (`for line in infh.lines()`),
keeps a single active buffer `seq`, a chromosome name `chr` and a window
counter `i : u32`, and emits one tab-separated record per extracted window.
We model:

* lines as `List Char` (the inputs of interest are ASCII, where Rust's
  byte slicing `&l[..1]`, `&seq[..seqlen]` and `chars().skip(seqlen)`
  agree with `List` operations, and `str::to_uppercase` agrees with
  `Char.toUpper`);
* `u32` / `usize` arithmetic as `Nat` reduced `% 2^32` / `% 2^64` at the
  operations the release build wraps (`i + 1`, `i * seqlen`,
  `gzlen - 10`);
* the external `flate2` compressor as a parameter
  `gz : List Char → Nat`, the byte count returned by the program's single
  `gz.read(&mut _buf)` call on a window text (the `Read` contract bounds
  it by the buffer size, which is a hypothesis where a claim needs it);
* the `f32` ratio `seq.as_bytes().len() as f32 / (gzlen - 10) as f32`
  by the exact integer operand pair fed to the division
  (fields `uncompLen` and `den` of a record), since the claims under
  study are about which integers enter the division;
* the runtime panic on `&l[..1]` for an empty line as an
  `Except.error`, and the fact that records already emitted before a
  panic were already written as the `List Rec × Option String` result
  of `run` (records written so far, and the panic if one occurred).
-/

namespace FaSeq

/-- `2^32`, the modulus of Rust `u32` arithmetic (release build wraps). -/
def U32 : Nat := 2 ^ 32

/-- `2^64`, the modulus of Rust `usize` arithmetic on a 64-bit target. -/
def U64 : Nat := 2 ^ 64

/-- The wrapping `usize` subtraction `n - 10` performed by
`(gzlen - 10) as f32` in the release build (`n < 2^64`). -/
def wsub10 (n : Nat) : Nat := (n + (U64 - 10)) % U64

/-- One emitted output record, mirroring the columns of
`format!("{}\t{}\t{}\t{}\t{}\t{}\n", chr, i*seqlen, (i+1)*seqlen, s, r, "+")`
plus the exact integer operands of the `f32` ratio `r` and two ghost
fields: `idx` is the value of `i` at emission and `flush` tells whether
the record came from the residue flush in the `">"` branch (`true`) or
from the windowing branch (`false`). -/
structure Rec where
  chr : String
  start : Nat
  stop : Nat
  seqText : List Char
  uncompLen : Nat
  gzLen : Nat
  den : Nat
  strand : String
  idx : Nat
  flush : Bool
  deriving DecidableEq

/-- The mutable state of the processing loop: `chr`, `seq` and `i`. -/
structure St where
  chr : String
  seq : List Char
  i : Nat
  deriving DecidableEq

/-- `l.to_uppercase()` on ASCII text. -/
def upper (l : List Char) : List Char := l.map Char.toUpper

/-- The record built by both emission sites of the source: the window (or
flushed residue) text is `s`, the state at emission is `st` (whose `seq`
is the buffer *after* the current line was pushed, in the windowing
branch).  Coordinates are `i * seqlen` and `(i + 1) * seqlen` in `u32`,
the ratio numerator is `seq.as_bytes().len()` — the full buffer length,
not `s.len()` — and the denominator is the wrapping `gzlen - 10`. -/
def mkRec (gz : List Char → Nat) (sl : Nat) (st : St) (s : List Char) (fl : Bool) : Rec :=
  { chr := st.chr
    start := st.i * sl % U32
    stop := (st.i + 1) * sl % U32
    seqText := s
    uncompLen := st.seq.length
    gzLen := gz s
    den := wsub10 (gz s)
    strand := "+"
    idx := st.i
    flush := fl }

/-- One iteration of `for line in infh.lines()`:
* an empty line panics on `&l[..1]` (byte index 1 out of bounds);
* a line starting with `'>'` flushes the whole pending buffer as one
  record if it is non-empty, then sets `chr` to the rest of the line,
  clears `seq` and resets `i` to `0`;
* any other line is uppercased and appended to `seq`; then, **once**
  (an `if`, not a loop), if `seq.len() >= seqlen` the first `seqlen`
  characters are emitted as a window, removed from the buffer, and `i`
  is incremented. -/
def stepLine (gz : List Char → Nat) (sl : Nat) (st : St) (l : List Char) :
    Except String (St × List Rec) :=
  match l with
  | [] => .error "byte index 1 is out of bounds"
  | c :: rest =>
    if c = '>' then
      .ok (⟨String.mk rest, [], 0⟩,
        if st.seq = [] then [] else [mkRec gz sl st st.seq true])
    else
      if sl ≤ (st.seq ++ upper (c :: rest)).length then
        .ok (⟨st.chr, (st.seq ++ upper (c :: rest)).drop sl, (st.i + 1) % U32⟩,
          [mkRec gz sl ⟨st.chr, st.seq ++ upper (c :: rest), st.i⟩
            ((st.seq ++ upper (c :: rest)).take sl) false])
      else
        .ok (⟨st.chr, st.seq ++ upper (c :: rest), st.i⟩, [])

/-- The whole `for` loop: processes the lines in order, accumulating the
records in emission order; a panic aborts the loop, keeping the records
already written.  The source has no end-of-input step: after the last
line the loop simply ends, whatever is left in `seq`. -/
def run (gz : List Char → Nat) (sl : Nat) : St → List (List Char) → List Rec × Option String
  | _, [] => ([], none)
  | st, l :: ls =>
    match stepLine gz sl st l with
    | .error e => ([], some e)
    | .ok (st2, recs) => (recs ++ (run gz sl st2 ls).1, (run gz sl st2 ls).2)

/-- The records written for a full input, starting from the initial state
`chr = String::new()`, `seq = String::new()`, `i = 0`. -/
def runRecords (gz : List Char → Nat) (sl : Nat) (lines : List (List Char)) : List Rec :=
  (run gz sl ⟨"", [], 0⟩ lines).1

/-- Characters of a string literal, for readable concrete inputs. -/
def cs (s : String) : List Char := s.data

/-- A concrete stand-in compressor for witnesses and counterexamples: the
single `read` into the `seqlen`-byte buffer returns at most `seqlen`
bytes, and a real gzip stream of `s` has about `s.length + 18` bytes of
header, payload and footer.  Only `gzModel sl s ≤ sl` matters below. -/
def gzModel (sl : Nat) (s : List Char) : Nat := min sl (s.length + 18)

/-- Sequential concatenation of the strings written to the output sink. -/
def strConcat : List String → String
  | [] => ""
  | s :: r => s ++ strConcat r

/-- The formatted line
`format!("{}\t{}\t{}\t{}\t{}\t{}\n", chr, i*seqlen, (i+1)*seqlen, s, r, "+")`,
with `shw` standing for the `Display` rendering of the `f32` ratio as a
function of its exact integer operand pair. -/
def formatRec (shw : Nat → Nat → String) (r : Rec) : String :=
  r.chr ++ "\t" ++ toString r.start ++ "\t" ++ toString r.stop ++ "\t" ++
    String.mk r.seqText ++ "\t" ++ shw r.uncompLen r.den ++ "\t" ++ r.strand ++ "\n"

/-- Plain-mode output: the formatted lines written in order. -/
def plainOutput (shw : Nat → Nat → String) (gz : List Char → Nat) (sl : Nat)
    (lines : List (List Char)) : String :=
  strConcat ((runRecords gz sl lines).map (formatRec shw))

/-- Compressed-mode output: each formatted line is wrapped on its own in a
fresh `write::GzEncoder` (`enc`), and the finished containers are
concatenated on the sink. -/
def gzOutput {β : Type} (enc : String → List β) (shw : Nat → Nat → String)
    (gz : List Char → Nat) (sl : Nat) (lines : List (List Char)) : List β :=
  List.flatten ((runRecords gz sl lines).map (fun r => enc (formatRec shw r)))

/-- Rust's `str::parse::<u32>`: an optional leading `'+'`, then one or
more ASCII digits, with the value required to fit in `u32`. -/
def parseU32 (s : String) : Option Nat :=
  let ds := match s.data with
    | '+' :: rest => rest
    | l => l
  if ds = [] then none
  else if ds.all Char.isDigit then
    let v := ds.foldl (fun a c => a * 10 + (c.toNat - 48)) 0
    if v < U32 then some v else none
  else none

/-- The `--seqlen` handling of `proc_args`: a missing option panics with
"--seqlen incorrect!", an unparsable value panics with the parse error,
and any value that parses as a `u32` — including `0` — is accepted. -/
def parseSeqlen : Option String → Except String Nat
  | none => .error "--seqlen incorrect!"
  | some s =>
    match parseU32 s with
    | some v => .ok v
    | none => .error "--seqlen cannot be parsed!"

/-- Provenance of an emitted record: it was built by `mkRec` either at a
header flush (`fl = true`, carrying the whole pending buffer, which was
non-empty) or at a window extraction (`fl = false`, carrying the first
`sl` characters of a buffer of length at least `sl`). -/
def Origin (gz : List Char → Nat) (sl : Nat) (r : Rec) : Prop :=
  ∃ st s fl, r = mkRec gz sl st s fl ∧
    ((fl = true ∧ s = st.seq ∧ s ≠ []) ∨
     (fl = false ∧ s = st.seq.take sl ∧ sl ≤ st.seq.length))

theorem stepLine_nil (gz : List Char → Nat) (sl : Nat) (st : St) :
    stepLine gz sl st [] = Except.error "byte index 1 is out of bounds" := rfl

theorem stepLine_cons (gz : List Char → Nat) (sl : Nat) (st : St) (c : Char) (rest : List Char) :
    stepLine gz sl st (c :: rest) =
      if c = '>' then
        Except.ok (⟨String.mk rest, [], 0⟩,
          if st.seq = [] then [] else [mkRec gz sl st st.seq true])
      else
        if sl ≤ (st.seq ++ upper (c :: rest)).length then
          Except.ok (⟨st.chr, (st.seq ++ upper (c :: rest)).drop sl, (st.i + 1) % U32⟩,
            [mkRec gz sl ⟨st.chr, st.seq ++ upper (c :: rest), st.i⟩
              ((st.seq ++ upper (c :: rest)).take sl) false])
        else
          Except.ok (⟨st.chr, st.seq ++ upper (c :: rest), st.i⟩, []) := rfl

theorem run_nil (gz : List Char → Nat) (sl : Nat) (st : St) :
    run gz sl st [] = ([], none) := rfl

theorem run_cons (gz : List Char → Nat) (sl : Nat) (st : St) (l : List Char)
    (ls : List (List Char)) :
    run gz sl st (l :: ls) =
      match stepLine gz sl st l with
      | .error e => ([], some e)
      | .ok (st2, recs) => (recs ++ (run gz sl st2 ls).1, (run gz sl st2 ls).2) := rfl

theorem run_fst_cons_ok {gz : List Char → Nat} {sl : Nat} {st st2 : St} {l : List Char}
    {recs : List Rec} (ls : List (List Char))
    (h : stepLine gz sl st l = Except.ok (st2, recs)) :
    (run gz sl st (l :: ls)).1 = recs ++ (run gz sl st2 ls).1 := by
  rw [run_cons, h]

theorem step_origin {gz : List Char → Nat} {sl : Nat} {st st2 : St} {l : List Char}
    {recs : List Rec} (h : stepLine gz sl st l = Except.ok (st2, recs)) :
    ∀ r ∈ recs, Origin gz sl r := by
  cases l with
  | nil => simp [stepLine_nil] at h
  | cons c rest =>
    rw [stepLine_cons] at h
    by_cases hc : c = '>'
    · rw [if_pos hc] at h
      by_cases hs : st.seq = []
      · rw [if_pos hs] at h
        simp only [Except.ok.injEq, Prod.mk.injEq] at h
        obtain ⟨-, h2⟩ := h
        subst h2
        intro r hr
        exact absurd hr (List.not_mem_nil r)
      · rw [if_neg hs] at h
        simp only [Except.ok.injEq, Prod.mk.injEq] at h
        obtain ⟨-, h2⟩ := h
        subst h2
        intro r hr
        rw [List.mem_singleton] at hr
        subst hr
        exact ⟨st, st.seq, true, rfl, Or.inl ⟨rfl, rfl, hs⟩⟩
    · rw [if_neg hc] at h
      by_cases hlen : sl ≤ (st.seq ++ upper (c :: rest)).length
      · rw [if_pos hlen] at h
        simp only [Except.ok.injEq, Prod.mk.injEq] at h
        obtain ⟨-, h2⟩ := h
        subst h2
        intro r hr
        rw [List.mem_singleton] at hr
        subst hr
        exact ⟨⟨st.chr, st.seq ++ upper (c :: rest), st.i⟩,
          (st.seq ++ upper (c :: rest)).take sl, false, rfl, Or.inr ⟨rfl, rfl, hlen⟩⟩
      · rw [if_neg hlen] at h
        simp only [Except.ok.injEq, Prod.mk.injEq] at h
        obtain ⟨-, h2⟩ := h
        subst h2
        intro r hr
        exact absurd hr (List.not_mem_nil r)

theorem run_mem_origin (gz : List Char → Nat) (sl : Nat) :
    ∀ (lines : List (List Char)) (st : St) (r : Rec),
      r ∈ (run gz sl st lines).1 → Origin gz sl r := by
  intro lines
  induction lines with
  | nil => intro st r h; simp [run_nil] at h
  | cons l ls ih =>
    intro st r h
    cases hstep : stepLine gz sl st l with
    | error e =>
      rw [run_cons, hstep] at h
      simp at h
    | ok p =>
      obtain ⟨st2, recs⟩ := p
      rw [run_fst_cons_ok ls hstep] at h
      rcases List.mem_append.mp h with h | h
      · exact step_origin hstep r h
      · exact ih st2 r h

theorem decJoin {β : Type} (enc : String → List β) (dec : List β → String)
    (hcat : ∀ s rest, dec (enc s ++ rest) = s ++ dec rest) (hnil : dec [] = "") :
    ∀ ss : List String, dec (List.flatten (ss.map enc)) = strConcat ss := by
  intro ss
  induction ss with
  | nil => simpa using hnil
  | cons s r ih =>
    rw [List.map_cons, List.flatten_cons, hcat, ih]
    rfl

/-- Record emitted for the single window of `>chr1` / `AAAACCCC`. -/
def rec7 : Rec := mkRec (gzModel 4) 4 ⟨"chr1", cs "AAAACCCC", 0⟩ (cs "AAAA") false

/-- Record emitted for the single window of `>chr1` / `AAAA`. -/
def recAAAA : Rec := mkRec (gzModel 4) 4 ⟨"chr1", cs "AAAA", 0⟩ (cs "AAAA") false

/-- Record flushed at the `>chr2` header after `>chr1` / `AC`. -/
def recAC : Rec := mkRec (gzModel 4) 4 ⟨"chr1", cs "AC", 0⟩ (cs "AC") true

/-- C1 counterexample: for the input `>chr1` / `AAAACCCC` with
`window_length = 4`, the program emits exactly one record,
`chr1 0 4 AAAA`, not the two records the claim states: the windowing
check is an `if` that runs once per appended line, and the remaining
`CCCC` is never emitted (there is no end-of-input flush). -/
theorem c1_counterexample :
    (runRecords (gzModel 4) 4 [cs ">chr1", cs "AAAACCCC"]).map
        (fun r => (r.chr, r.start, r.stop, r.seqText)) =
      [("chr1", 0, 4, cs "AAAA")] ∧
    (runRecords (gzModel 4) 4 [cs ">chr1", cs "AAAACCCC"]).length ≠ 2 := by
  decide

/-- C1 (amended): window extraction runs at most once per appended line,
so each processed line emits at most one record, and the concrete input
`>chr1` / `AAAACCCC` with `window_length = 4` yields exactly the single
record `chr1 0 4 AAAA`. -/
theorem c1_once_per_line (gz : List Char → Nat) :
    (runRecords gz 4 [cs ">chr1", cs "AAAACCCC"]).map
        (fun r => (r.chr, r.start, r.stop, r.seqText)) =
      [("chr1", 0, 4, cs "AAAA")] ∧
    (∀ sl st l st2 recs,
      stepLine gz sl st l = Except.ok (st2, recs) → recs.length ≤ 1) := by
  constructor
  · rfl
  · intro sl st l st2 recs h
    cases l with
    | nil => simp [stepLine_nil] at h
    | cons c rest =>
      rw [stepLine_cons] at h
      by_cases hc : c = '>'
      · rw [if_pos hc] at h
        simp only [Except.ok.injEq, Prod.mk.injEq] at h
        obtain ⟨-, h2⟩ := h
        subst h2
        by_cases hs : st.seq = [] <;> simp [hs]
      · rw [if_neg hc] at h
        by_cases hlen : sl ≤ (st.seq ++ upper (c :: rest)).length
        · rw [if_pos hlen] at h
          simp only [Except.ok.injEq, Prod.mk.injEq] at h
          obtain ⟨-, h2⟩ := h
          subst h2
          simp
        · rw [if_neg hlen] at h
          simp only [Except.ok.injEq, Prod.mk.injEq] at h
          obtain ⟨-, h2⟩ := h
          subst h2
          simp

/-- C1 witness: the amended theorem applied at the concrete step for the
line `AAAACCCC` from the fresh `chr1` state. -/
theorem c1_witness :
    ([mkRec (gzModel 4) 4 ⟨"", cs "AAAACCCC", 0⟩ (cs "AAAA") false] : List Rec).length ≤ 1 :=
  (c1_once_per_line (gzModel 4)).2 4 ⟨"", [], 0⟩ (cs "AAAACCCC") ⟨"", cs "CCCC", 1⟩
    [mkRec (gzModel 4) 4 ⟨"", cs "AAAACCCC", 0⟩ (cs "AAAA") false] rfl

/-- C2 counterexample: for the input `>chr1` / `AC` / `>chr2` with
`window_length = 4`, the pending two-character buffer of `chr1` is not
discarded at the `>chr2` header: the program emits a record whose
sequence text is `AC`, of length `2 ≠ 4`. -/
theorem c2_counterexample :
    (runRecords (gzModel 4) 4 [cs ">chr1", cs "AC", cs ">chr2"]).map
        (fun r => (r.chr, r.seqText, r.seqText.length)) = [("chr1", cs "AC", 2)] ∧
    (2 : Nat) ≠ 4 := by
  decide

/-- C2 (amended): records emitted by the windowing branch always have
sequence text of length exactly `seqlen`, but a new header with a
non-empty pending buffer does not discard it: it emits one record
carrying the entire residual buffer, whatever its length. -/
theorem c2_window_length (gz : List Char → Nat) (sl : Nat) :
    (∀ lines r, r ∈ runRecords gz sl lines →
        (r.flush = false → r.seqText.length = sl) ∧
        (r.flush = true → r.seqText ≠ [])) ∧
    (∀ st name, st.seq ≠ [] →
        stepLine gz sl st ('>' :: name) =
          Except.ok (⟨String.mk name, [], 0⟩, [mkRec gz sl st st.seq true])) := by
  constructor
  · intro lines r hmem
    obtain ⟨st0, s0, fl0, rfl, hOr⟩ := run_mem_origin gz sl lines ⟨"", [], 0⟩ r hmem
    constructor
    · intro hfl
      rcases hOr with ⟨ht, -, -⟩ | ⟨-, hs, hle⟩
      · rw [show (mkRec gz sl st0 s0 fl0).flush = fl0 from rfl, ht] at hfl
        exact Bool.noConfusion hfl
      · show ((mkRec gz sl st0 s0 fl0).seqText).length = sl
        rw [show (mkRec gz sl st0 s0 fl0).seqText = s0 from rfl, hs, List.length_take]
        exact Nat.min_eq_left hle
    · intro hfl
      rcases hOr with ⟨-, hs, hne⟩ | ⟨hf, -, -⟩
      · show (mkRec gz sl st0 s0 fl0).seqText ≠ []
        rw [show (mkRec gz sl st0 s0 fl0).seqText = s0 from rfl]
        exact hne
      · rw [show (mkRec gz sl st0 s0 fl0).flush = fl0 from rfl, hf] at hfl
        exact Bool.noConfusion hfl
  · intro st name hne
    rw [stepLine_cons, if_pos rfl, if_neg hne]

/-- C2 witness: the amended theorem at the record flushed for `chr1`'s
residual buffer `AC` when the `>chr2` header arrives. -/
theorem c2_witness :
    (recAC.flush = false → recAC.seqText.length = 4) ∧
      (recAC.flush = true → recAC.seqText ≠ []) :=
  (c2_window_length (gzModel 4) 4).1 [cs ">chr1", cs "AC", cs ">chr2"] recAC (by decide)

/-- C3: evaluation at the failing input. For `>chr1` / `AAAACCCC` with
`window_length = 4`, the emitted window is the 4-character `AAAA`, but
the ratio numerator the code uses is `seq.as_bytes().len() = 8`, the full
buffer length at scoring time, not `seqlen = 4`: the claim that
`uncompressed_length` is always `seqlen` regardless of buffered residues
beyond the window is violated by the code. -/
theorem c3_bug_eval :
    (runRecords (gzModel 4) 4 [cs ">chr1", cs "AAAACCCC"]).map
        (fun r => (r.uncompLen, r.seqText.length)) = [(8, 4)] ∧ (8 : Nat) ≠ 4 := by
  decide

/-- C4: evaluation at the failing input. For `>chr1` / `AAAA` with
`window_length = 4`, the single `read` into the 4-byte buffer returns
`gzlen = 4 ≤ 10`, and `(gzlen - 10) as f32` wraps the `usize`
subtraction to `2^64 - 6`: this wrapped operand flows into the emitted
record and the run reports no error at all, instead of the defined,
explicitly reported per-window error condition the claim states. -/
theorem c4_bug_eval :
    (run (gzModel 4) 4 ⟨"", [], 0⟩ [cs ">chr1", cs "AAAA"]).2 = none ∧
    (runRecords (gzModel 4) 4 [cs ">chr1", cs "AAAA"]).map (fun r => (r.gzLen, r.den)) =
      [(4, U64 - 6)] ∧
    U32 < U64 - 6 := by
  refine ⟨rfl, by decide, by decide⟩

/-- C5 counterexample: `--seqlen 0` is not rejected: it parses as a valid
`u32` and processing proceeds, emitting a degenerate empty-window record
for the first sequence line. -/
theorem c5_counterexample :
    parseSeqlen (some "0") = Except.ok 0 ∧
    (runRecords (fun _ => 0) 0 [cs ">chr1", cs "A"]).map (fun r => r.seqText) = [[]] :=
  ⟨rfl, rfl⟩

/-- C5 (amended): `proc_args` accepts any `--seqlen` value that parses as
a `u32`, including `0`; only a missing or unparsable value is a fatal
configuration error, and with `seqlen = 0` processing proceeds and emits
records rather than being rejected before input is read. -/
theorem c5_amended :
    parseSeqlen (some "0") = Except.ok 0 ∧
    (∀ s v, parseU32 s = some v → parseSeqlen (some s) = Except.ok v) ∧
    (∀ s, parseU32 s = none →
      parseSeqlen (some s) = Except.error "--seqlen cannot be parsed!") ∧
    parseSeqlen none = Except.error "--seqlen incorrect!" ∧
    (runRecords (fun _ => 0) 0 [cs ">chr1", cs "A"]).length = 1 := by
  refine ⟨rfl, ?_, ?_, rfl, rfl⟩
  · intro s v h
    simp [parseSeqlen, h]
  · intro s h
    simp [parseSeqlen, h]

/-- C5 witness: the amended theorem at the parsable value `"7"`. -/
theorem c5_witness : parseSeqlen (some "7") = Except.ok 7 :=
  c5_amended.2.1 "7" 7 (by decide)

/-- C6: evaluation at the failing input. For the input `>chr1` followed
by an empty line, the code aborts by the out-of-bounds string-slice
panic of `&l[..1]` (byte index 1 out of bounds), not by reporting a
malformed-input parse error; no record is produced for that line. -/
theorem c6_bug_eval :
    run (gzModel 4) 4 ⟨"", [], 0⟩ [cs ">chr1", []] =
      ([], some "byte index 1 is out of bounds") := rfl

/-- C7: every emitted record has `start = idx * seqlen`,
`end = (idx + 1) * seqlen` (as `u32`) and strand `"+"`; a header line
always resets the window counter to `0`; a sequence line either emits
nothing and keeps the counter, or emits one record at the current
counter and increments it by exactly one; and in the concrete
two-chromosome run the second chromosome restarts at coordinates
`0, window_length`. -/
theorem c7_coords_and_index (gz : List Char → Nat) (sl : Nat) :
    (∀ lines r, r ∈ runRecords gz sl lines →
        r.start = r.idx * sl % U32 ∧ r.stop = (r.idx + 1) * sl % U32 ∧
          r.strand = "+") ∧
    (∀ st name, stepLine gz sl st ('>' :: name) =
        Except.ok (⟨String.mk name, [], 0⟩,
          if st.seq = [] then [] else [mkRec gz sl st st.seq true])) ∧
    (∀ st c rest st2 recs, c ≠ '>' →
        stepLine gz sl st (c :: rest) = Except.ok (st2, recs) →
        (recs = [] ∧ st2.i = st.i) ∨
          ∃ r, recs = [r] ∧ r.idx = st.i ∧ st2.i = (st.i + 1) % U32) ∧
    (runRecords gz 4 [cs ">chr1", cs "AAAACCCC", cs ">chr2", cs "GGGGTTTT"]).map
        (fun r => (r.chr, r.start, r.stop, r.idx)) =
      [("chr1", 0, 4, 0), ("chr1", 4, 8, 1), ("chr2", 0, 4, 0)] := by
  refine ⟨?_, ?_, ?_, rfl⟩
  · intro lines r hmem
    obtain ⟨st0, s0, fl0, rfl, -⟩ := run_mem_origin gz sl lines ⟨"", [], 0⟩ r hmem
    exact ⟨rfl, rfl, rfl⟩
  · intro st name
    rfl
  · intro st c rest st2 recs hc h
    rw [stepLine_cons, if_neg hc] at h
    by_cases hlen : sl ≤ (st.seq ++ upper (c :: rest)).length
    · rw [if_pos hlen] at h
      simp only [Except.ok.injEq, Prod.mk.injEq] at h
      obtain ⟨h1, h2⟩ := h
      right
      exact ⟨mkRec gz sl ⟨st.chr, st.seq ++ upper (c :: rest), st.i⟩
          ((st.seq ++ upper (c :: rest)).take sl) false,
        h2.symm, rfl, by rw [← h1]⟩
    · rw [if_neg hlen] at h
      simp only [Except.ok.injEq, Prod.mk.injEq] at h
      obtain ⟨h1, h2⟩ := h
      exact Or.inl ⟨h2.symm, by rw [← h1]⟩

/-- C7 witness: the coordinate formula at the concrete `chr1` window
record of the `>chr1` / `AAAACCCC` run. -/
theorem c7_witness :
    rec7.start = rec7.idx * 4 % U32 ∧ rec7.stop = (rec7.idx + 1) * 4 % U32 ∧
      rec7.strand = "+" :=
  (c7_coords_and_index (gzModel 4) 4).1 [cs ">chr1", cs "AAAACCCC"] rec7 (by decide)

/-- C8: at end of input, buffered residues are silently dropped: the loop
has no end-of-input step, so processing an empty remainder emits nothing
whatever is buffered, and the concrete input `>chr1` / `AAAAA` with
`window_length = 4` emits exactly one record `chr1 0 4 AAAA`, none for
the trailing `A`. -/
theorem c8_eof_drop (gz : List Char → Nat) :
    (runRecords gz 4 [cs ">chr1", cs "AAAAA"]).map
        (fun r => (r.chr, r.start, r.stop, r.seqText)) =
      [("chr1", 0, 4, cs "AAAA")] ∧
    (∀ sl st, run gz sl st [] = ([], none)) :=
  ⟨rfl, fun _ _ => rfl⟩

/-- C8 witness: the theorem at a concrete compressor, with the
end-of-input clause applied to a state holding a short residue `ABC`. -/
theorem c8_witness :
    (runRecords (gzModel 4) 4 [cs ">chr1", cs "AAAAA"]).map
        (fun r => (r.chr, r.start, r.stop, r.seqText)) =
      [("chr1", 0, 4, cs "AAAA")] ∧
    run (gzModel 4) 4 ⟨"chr1", cs "ABC", 1⟩ [] = ([], none) :=
  ⟨(c8_eof_drop (gzModel 4)).1, (c8_eof_drop (gzModel 4)).2 4 ⟨"chr1", cs "ABC", 1⟩⟩

/-- C9: for any per-line compressed container format whose decompressor
recovers a member's payload from the concatenation (`dec (enc s ++ rest)
= s ++ dec rest`, `dec [] = ""`), decompressing the compressed-mode
output — the concatenation of independently compressed containers, one
per formatted record line — yields exactly the bytes plain mode writes
for the same input and configuration. -/
theorem c9_roundtrip {β : Type} (enc : String → List β) (dec : List β → String)
    (shw : Nat → Nat → String) (gz : List Char → Nat) (sl : Nat)
    (lines : List (List Char))
    (hcat : ∀ s rest, dec (enc s ++ rest) = s ++ dec rest) (hnil : dec [] = "") :
    dec (gzOutput enc shw gz sl lines) = plainOutput shw gz sl lines := by
  have h := decJoin enc dec hcat hnil ((runRecords gz sl lines).map (formatRec shw))
  simpa [gzOutput, plainOutput, List.map_map, Function.comp] using h

/-- C9 witness: the round trip at a concrete container format (one
string per container) and the `>chr1` / `AAAACCCC` input. -/
theorem c9_witness :
    strConcat (gzOutput (fun s => [s]) (fun a b => toString a ++ "/" ++ toString b)
        (gzModel 4) 4 [cs ">chr1", cs "AAAACCCC"]) =
      plainOutput (fun a b => toString a ++ "/" ++ toString b) (gzModel 4) 4
        [cs ">chr1", cs "AAAACCCC"] :=
  c9_roundtrip (fun s => [s]) strConcat (fun a b => toString a ++ "/" ++ toString b)
    (gzModel 4) 4 [cs ">chr1", cs "AAAACCCC"] (fun _ _ => rfl) rfl

/-- C10: the compressed length entering the ratio of every emitted record
is the byte count of the program's single `read` into the `seqlen`-byte
buffer on the scored text, so under the `Read` contract (a read returns
at most the buffer size) the measured length never exceeds `seqlen`, and
the wrapped overhead subtraction is applied to that truncated count. -/
theorem c10_truncated_gzlen (gz : List Char → Nat) (sl : Nat) (hgz : ∀ s, gz s ≤ sl) :
    ∀ lines r, r ∈ runRecords gz sl lines →
      r.gzLen = gz r.seqText ∧ r.gzLen ≤ sl ∧ r.den = wsub10 r.gzLen := by
  intro lines r hmem
  obtain ⟨st0, s0, fl0, rfl, -⟩ := run_mem_origin gz sl lines ⟨"", [], 0⟩ r hmem
  exact ⟨rfl, hgz s0, rfl⟩

/-- C10 witness: the theorem at the concrete model compressor (whose
single read returns at most the buffer size) and the window record of
`>chr1` / `AAAA`. -/
theorem c10_witness :
    recAAAA.gzLen = gzModel 4 recAAAA.seqText ∧ recAAAA.gzLen ≤ 4 ∧
      recAAAA.den = wsub10 recAAAA.gzLen :=
  c10_truncated_gzlen (gzModel 4) 4 (fun s => Nat.min_le_left 4 (s.length + 18))
    [cs ">chr1", cs "AAAA"] recAAAA (by decide)

end FaSeq
